import Mathlib

/-
Verification of the git FUSE bridge in src/main.rs: the inode / oid Bimap
and the four read-only handlers (lookup, getattr, read, readdir) of
GitFilesystem, shallowly embedded as pure Lean functions. A handler either
finishes with its reply (and the possibly grown Bimap) or the process
aborts, which is modelled by the Outcome.panicked result.
-/

namespace GitFS

/-- A content byte, abstracted to a natural number below 256 is not needed
for any claim, so plain Nat. -/
abbrev Byte := Nat

/-- An object identifier (git2 Oid), abstracted to a natural number; the
code only compares oids for equality and stores them in maps. -/
abbrev Oid := Nat

/-- git2 ObjectType, restricted to the four kinds a git odb can hold. -/
inductive ObjectType where
  | tree
  | blob
  | commit
  | tag
deriving DecidableEq

/-- The fuse FileType values the program produces. -/
inductive FileType where
  | directory
  | regularFile
deriving DecidableEq

/-- time Timespec: seconds and nanoseconds. -/
structure Timespec where
  sec : Int
  nsec : Int
deriving DecidableEq

/-- TTL constant from main.rs: one second. -/
def TTL : Timespec := { sec := 1, nsec := 0 }

/-- CREATE_TIME constant from main.rs: the fixed timestamp used for every
attribute field. -/
def CREATE_TIME : Timespec := { sec := 1381237736, nsec := 0 }

/-- One entry of a git tree object: child oid, declared kind, and name.
The source unwraps entry.kind() and entry.name(); both are always present
for entries of a well-formed tree object, so they are total here. -/
structure TreeEntry where
  id : Oid
  kind : ObjectType
  name : String
deriving DecidableEq

/-- A git object as loaded from the repository by find_object. -/
inductive GitObject where
  | treeObj (entries : List TreeEntry)
  | blobObj (content : List Byte)
  | commitObj
  | tagObj
deriving DecidableEq

/-- The object store: a partial map from oid to the stored object. -/
abbrev Repo := Oid → Option GitObject

/-- Result of running a piece of the program: either it finishes with a
value, or the process aborts (a Rust panic, an arithmetic overflow, or an
out-of-bounds slice or index). -/
inductive Outcome (α : Type) where
  | ok (a : α)
  | panicked
deriving DecidableEq

/-- struct Bimap from main.rs: the ordered sequence of oids (inode i is
bound to forward[i - 1]) and the reverse table from oid to inode. The
HashMap is modelled as the list of inserts, most recent first. -/
structure Bimap where
  forward : List Oid
  reverse : List (Oid × Nat)
deriving DecidableEq

/-- HashMap lookup over the list of inserts (most recent insert wins). -/
def findAssoc : List (Oid × Nat) → Oid → Option Nat
  | [], _ => none
  | (a, b) :: rest, k => if a = k then some b else findAssoc rest k

/-- Bimap::get_forward from main.rs. The source checks k <= forward.len()
and then indexes forward[k - 1]; for k = 0 the subtraction on usize
overflows (debug) or wraps to an out-of-bounds index (release), so the
process aborts either way, which is modelled as panicked. -/
def Bimap.get_forward (s : Bimap) (k : Nat) : Outcome (Option Oid) :=
  if k ≤ s.forward.length then
    if k = 0 then
      Outcome.panicked
    else
      match s.forward[k - 1]? with
      | some v => Outcome.ok (some v)
      | none => Outcome.panicked
  else
    Outcome.ok none

/-- Bimap::get_reverse from main.rs. -/
def Bimap.get_reverse (s : Bimap) (v : Oid) : Option Nat :=
  findAssoc s.reverse v

/-- Bimap::get_reverse_or_alloc from main.rs: return the existing inode of
v, or push v onto forward, bind it to the new length, and record the
reverse entry. -/
def Bimap.get_reverse_or_alloc (s : Bimap) (v : Oid) : Nat × Bimap :=
  match s.get_reverse v with
  | some k => (k, s)
  | none =>
    let forward2 := s.forward ++ [v]
    let k := forward2.length
    (k, { forward := forward2, reverse := (v, k) :: s.reverse })

/-- GitFilesystem::new seeds the Bimap with the root tree oid at inode 1. -/
def initNodes (root : Oid) : Bimap :=
  { forward := [root], reverse := [(root, 1)] }

/-- git2 Repository::find_tree: succeeds only when the oid names a tree. -/
def find_tree (repo : Repo) (oid : Oid) : Option (List TreeEntry) :=
  match repo oid with
  | some (GitObject.treeObj es) => some es
  | _ => none

/-- git2 Repository::find_object with no kind filter. -/
def find_object (repo : Repo) (oid : Oid) : Option GitObject :=
  repo oid

/-- get_tree from main.rs: resolve the inode through the Bimap, then
find_tree. Both failure modes (inode not found, oid not a tree) are Err
values in the source and collapse to none here. -/
def get_tree (repo : Repo) (nodes : Bimap) (ino : Nat) :
    Outcome (Option (List TreeEntry)) :=
  match nodes.get_forward ino with
  | Outcome.panicked => Outcome.panicked
  | Outcome.ok none => Outcome.ok none
  | Outcome.ok (some oid) => Outcome.ok (find_tree repo oid)

/-- get_obj from main.rs: resolve the inode through the Bimap, then
find_object. -/
def get_obj (repo : Repo) (nodes : Bimap) (ino : Nat) :
    Outcome (Option GitObject) :=
  match nodes.get_forward ino with
  | Outcome.panicked => Outcome.panicked
  | Outcome.ok none => Outcome.ok none
  | Outcome.ok (some oid) => Outcome.ok (find_object repo oid)

/-- The FileType that get_tree_entry_info assigns to a tree or blob entry. -/
def fileTypeOf : ObjectType → FileType
  | ObjectType.tree => FileType.directory
  | _ => FileType.regularFile

/-- get_tree_entry_info from main.rs: map the entry kind to a FileType
(any kind other than tree or blob hits the panic arm), and intern the
entry oid in the Bimap. -/
def get_tree_entry_info (nodes : Bimap) (entry : TreeEntry) :
    Outcome ((Nat × FileType × String) × Bimap) :=
  match entry.kind with
  | ObjectType.tree =>
    let r := nodes.get_reverse_or_alloc entry.id
    Outcome.ok ((r.1, FileType.directory, entry.name), r.2)
  | ObjectType.blob =>
    let r := nodes.get_reverse_or_alloc entry.id
    Outcome.ok ((r.1, FileType.regularFile, entry.name), r.2)
  | _ => Outcome.panicked

/-- fuse FileAttr with the fields the program fills in. -/
structure FileAttr where
  ino : Nat
  size : Nat
  blocks : Nat
  atime : Timespec
  mtime : Timespec
  ctime : Timespec
  crtime : Timespec
  kind : FileType
  perm : Nat
  nlink : Nat
  uid : Nat
  gid : Nat
  rdev : Nat
  flags : Nat
deriving DecidableEq

/-- The FileAttr literal that lookup and getattr both build (the two
handlers contain the identical record expression). The blocks field is
(size + 4095) / 4096 exactly as in the source; on a 64-bit target the
usize arithmetic cannot overflow for a real blob length, so plain Nat
arithmetic is faithful. -/
def mkFileAttr (ino : Nat) (size : Nat) (kind : FileType) : FileAttr :=
  { ino := ino
    size := size
    blocks := (size + 4095) / 4096
    atime := CREATE_TIME
    mtime := CREATE_TIME
    ctime := CREATE_TIME
    crtime := CREATE_TIME
    kind := kind
    perm := 0o755
    nlink := 2
    uid := 99
    gid := 99
    rdev := 0
    flags := 0 }

/-- The spec requires these fields to be fixed constants identical across
all nodes. -/
def FixedFields (a : FileAttr) : Prop :=
  a.atime = CREATE_TIME ∧ a.mtime = CREATE_TIME ∧ a.ctime = CREATE_TIME ∧
  a.crtime = CREATE_TIME ∧ a.perm = 0o755 ∧ a.nlink = 2 ∧ a.uid = 99 ∧
  a.gid = 99 ∧ a.rdev = 0 ∧ a.flags = 0

/-- ReplyAttr: either reply.attr(ttl, attr) or reply.error(errno). -/
inductive AttrReply where
  | attr (ttl : Timespec) (a : FileAttr)
  | error (errno : Nat)
deriving DecidableEq

/-- ReplyEntry: either reply.entry(ttl, attr, generation) or
reply.error(errno). -/
inductive EntryReply where
  | entry (ttl : Timespec) (a : FileAttr) (generation : Nat)
  | error (errno : Nat)
deriving DecidableEq

/-- ReplyData: either reply.data(bytes) or reply.error(errno). -/
inductive DataReply where
  | data (bytes : List Byte)
  | error (errno : Nat)
deriving DecidableEq

/-- ReplyDirectory: the sequence of entries passed to reply.add, each
(inode, next cursor, kind, name), finished by reply.ok; or reply.error. -/
inductive DirReply where
  | ok (entries : List (Nat × Nat × FileType × String))
  | error (errno : Nat)
deriving DecidableEq

/-- libc ENOENT. -/
def ENOENT : Nat := 2

/-- GitFilesystem::getattr from main.rs. A failed get_obj hits the
panic arm (object not found), and an object kind outside tree and blob
hits the panic arm (unexpected type); a blob or tree yields reply.attr
with the synthesized FileAttr and leaves the Bimap untouched. -/
def getattr (repo : Repo) (nodes : Bimap) (ino : Nat) :
    Outcome (AttrReply × Bimap) :=
  match get_obj repo nodes ino with
  | Outcome.panicked => Outcome.panicked
  | Outcome.ok none => Outcome.panicked
  | Outcome.ok (some obj) =>
    match obj with
    | GitObject.blobObj content =>
      Outcome.ok (AttrReply.attr TTL
        (mkFileAttr ino content.length FileType.regularFile), nodes)
    | GitObject.treeObj _ =>
      Outcome.ok (AttrReply.attr TTL
        (mkFileAttr ino 0 FileType.directory), nodes)
    | _ => Outcome.panicked

/-- GitFilesystem::read from main.rs. The blob content is sliced as
content[offset .. offset + size] with no clamping, so a range reaching
past the content length is an out-of-bounds slice and aborts the process;
a failed get_obj or a non-blob object hits a panic arm. -/
def read (repo : Repo) (nodes : Bimap) (ino offset size : Nat) :
    Outcome (DataReply × Bimap) :=
  match get_obj repo nodes ino with
  | Outcome.panicked => Outcome.panicked
  | Outcome.ok none => Outcome.panicked
  | Outcome.ok (some obj) =>
    match obj with
    | GitObject.blobObj content =>
      if offset + size ≤ content.length then
        Outcome.ok (DataReply.data ((content.drop offset).take size), nodes)
      else
        Outcome.panicked
    | _ => Outcome.panicked

/-- The scan over the tree entries inside GitFilesystem::lookup: the first
entry whose name matches is interned and described; the source then loads
the object again by oid (unwrap aborts when it is missing from the store)
and synthesizes the attribute record from the loaded object. -/
def lookupLoop (repo : Repo) (nodes : Bimap) (name : String) :
    List TreeEntry → Outcome (EntryReply × Bimap)
  | [] => Outcome.ok (EntryReply.error ENOENT, nodes)
  | e :: rest =>
    if e.name = name then
      match get_tree_entry_info nodes e with
      | Outcome.panicked => Outcome.panicked
      | Outcome.ok (info, nodes2) =>
        match find_object repo e.id with
        | none => Outcome.panicked
        | some obj =>
          match obj with
          | GitObject.blobObj content =>
            Outcome.ok (EntryReply.entry TTL
              (mkFileAttr info.1 content.length FileType.regularFile) 0, nodes2)
          | GitObject.treeObj _ =>
            Outcome.ok (EntryReply.entry TTL
              (mkFileAttr info.1 0 FileType.directory) 0, nodes2)
          | _ => Outcome.panicked
    else lookupLoop repo nodes name rest

/-- GitFilesystem::lookup from main.rs: resolve the parent to a tree
(reply.error(ENOENT) when that fails) and scan its entries. -/
def lookup (repo : Repo) (nodes : Bimap) (parent : Nat) (name : String) :
    Outcome (EntryReply × Bimap) :=
  match get_tree repo nodes parent with
  | Outcome.panicked => Outcome.panicked
  | Outcome.ok none => Outcome.ok (EntryReply.error ENOENT, nodes)
  | Outcome.ok (some es) => lookupLoop repo nodes name es

/-- The child-emission loop inside GitFilesystem::readdir; i is the
0-based index of the next entry, whose reply cursor is i + 2. -/
def readdirLoop (nodes : Bimap) (i : Nat) :
    List TreeEntry → Outcome (List (Nat × Nat × FileType × String) × Bimap)
  | [] => Outcome.ok ([], nodes)
  | e :: rest =>
    match get_tree_entry_info nodes e with
    | Outcome.panicked => Outcome.panicked
    | Outcome.ok (info, nodes2) =>
      match readdirLoop nodes2 (i + 1) rest with
      | Outcome.panicked => Outcome.panicked
      | Outcome.ok (l, nodes3) =>
        Outcome.ok ((info.1, i + 2, info.2.1, info.2.2) :: l, nodes3)

/-- GitFilesystem::readdir from main.rs: resolve the inode to a tree
(reply.error(ENOENT) when that fails); a cursor other than 0 and
len + 1 hits the panic arm (unexpected offset); cursor 0 emits "." and
".." bound to inode 1 and then every child in order; cursor len + 1
emits nothing and replies ok. -/
def readdir (repo : Repo) (nodes : Bimap) (ino offset : Nat) :
    Outcome (DirReply × Bimap) :=
  match get_tree repo nodes ino with
  | Outcome.panicked => Outcome.panicked
  | Outcome.ok none => Outcome.ok (DirReply.error ENOENT, nodes)
  | Outcome.ok (some es) =>
    if offset ≠ 0 ∧ offset ≠ es.length + 1 then
      Outcome.panicked
    else if offset = 0 then
      match readdirLoop nodes 0 es with
      | Outcome.panicked => Outcome.panicked
      | Outcome.ok (l, nodes2) =>
        Outcome.ok (DirReply.ok ((1, 0, FileType.directory, ".") ::
          (1, 1, FileType.directory, "..") :: l), nodes2)
    else
      Outcome.ok (DirReply.ok [], nodes)

/-- Bimap states reachable from mount construction with the given root:
the seeded state, closed under get_reverse_or_alloc (the only mutation
the program ever performs). -/
inductive Reachable (root : Oid) : Bimap → Prop where
  | init : Reachable root (initNodes root)
  | step (s : Bimap) (v : Oid) : Reachable root s →
      Reachable root (s.get_reverse_or_alloc v).2

/-- The Bimap invariant: the oid stored at forward position j carries the
reverse entry j + 1. -/
def BimapInv (s : Bimap) : Prop :=
  ∀ j o, s.forward[j]? = some o → findAssoc s.reverse o = some (j + 1)

/-- Example tree entry: a regular file a.txt stored at oid 2. -/
def fileEntry : TreeEntry := { id := 2, kind := ObjectType.blob, name := "a.txt" }

/-- Example tree entry of unsupported kind: a submodule (commit) entry. -/
def subEntry : TreeEntry := { id := 4, kind := ObjectType.commit, name := "sub" }

/-- Example store: oid 1 is the root tree holding a.txt (oid 2, two bytes
of content); oid 3 is a tree holding the submodule entry for oid 4. -/
def exRepo : Repo := fun o =>
  if o = 1 then some (GitObject.treeObj [fileEntry])
  else if o = 2 then some (GitObject.blobObj [104, 105])
  else if o = 3 then some (GitObject.treeObj [subEntry])
  else if o = 4 then some GitObject.commitObj
  else none

/-- The Bimap right after mounting exRepo at root oid 1. -/
def exNodes : Bimap := initNodes 1

/-- The Bimap after a.txt (oid 2) has been interned as inode 2. -/
def exNodes2 : Bimap := { forward := [1, 2], reverse := [(2, 2), (1, 1)] }

/-- A Bimap for the submodule tree: inode 1 is tree oid 3, inode 2 is the
commit oid 4. -/
def subNodes : Bimap := { forward := [3, 4], reverse := [(4, 2), (3, 1)] }

/-- Claim C1. The claim states that read(inode, offset, length) clamps the
range to the content length, returning zero bytes when offset is at or
past the end and the available trailing bytes when offset + length
reaches past it. The code slices the blob content without any clamp, so
both truncation cases abort the process: on the two-byte blob at inode 2,
read(2, 1, 5) panics instead of returning the one available byte, and
read(2, 5, 5) panics instead of returning zero bytes; an in-range request
read(2, 0, 2) does return the bytes. -/
theorem read_unclamped_eval :
    read exRepo exNodes2 2 1 5 = Outcome.panicked ∧
    read exRepo exNodes2 2 5 5 = Outcome.panicked ∧
    read exRepo exNodes2 2 0 2 =
      Outcome.ok (DataReply.data [104, 105], exNodes2) := by
  decide

/-- Claim C2. The claim states that getattr on an inode that was never
allocated replies with an I/O error and the process keeps serving. In the
code the failed get_obj hits the panic arm, aborting the process: with
only inode 1 allocated, getattr(9999) panics and in particular is not an
error reply. -/
theorem getattr_unknown_inode_eval :
    getattr exRepo exNodes 9999 = Outcome.panicked ∧
    (∀ errno : Nat, getattr exRepo exNodes 9999 ≠
      Outcome.ok (AttrReply.error errno, exNodes)) := by
  constructor
  · decide
  · intro errno h
    exact absurd (by decide : getattr exRepo exNodes 9999 = Outcome.panicked)
      (by simp [h])

/-- Claim C3. The claim states that a request meeting an object whose kind
is neither directory nor file fails that one request with a recoverable
error and never terminates the process. In the code every such arm is a
panic: with tree oid 3 holding a submodule (commit) entry at inode 1 and
the commit object itself at inode 2, getattr on the commit object panics,
the entry-description helper panics on the commit entry, and readdir and
lookup on the containing tree panic while enumerating it. -/
theorem unsupported_kind_eval :
    getattr exRepo subNodes 2 = Outcome.panicked ∧
    get_tree_entry_info subNodes subEntry = Outcome.panicked ∧
    readdir exRepo subNodes 1 0 = Outcome.panicked ∧
    lookup exRepo subNodes 1 "sub" = Outcome.panicked := by
  decide

/-- Claim C4. The claim states that readdir with a cursor other than 0 and
n + 1 replies with an I/O error and does not abort. In the code that
cursor check is a panic arm: on the root directory with one entry,
readdir(1, 5) panics (and is in particular not an error reply), while the
terminating call readdir(1, 2) succeeds with no entries as claimed. -/
theorem readdir_bad_cursor_eval :
    readdir exRepo exNodes 1 5 = Outcome.panicked ∧
    (∀ errno : Nat, readdir exRepo exNodes 1 5 ≠
      Outcome.ok (DirReply.error errno, exNodes)) ∧
    readdir exRepo exNodes 1 2 = Outcome.ok (DirReply.ok [], exNodes) := by
  refine ⟨by decide, ?_, by decide⟩
  intro errno h
  exact absurd (by decide : readdir exRepo exNodes 1 5 = Outcome.panicked)
    (by simp [h])

/-- After interning v, the reverse table binds v to the returned inode. -/
theorem get_reverse_alloc_self (s : Bimap) (v : Oid) :
    ((s.get_reverse_or_alloc v).2).get_reverse v =
      some (s.get_reverse_or_alloc v).1 := by
  cases h : findAssoc s.reverse v with
  | some k =>
    simp [Bimap.get_reverse_or_alloc, Bimap.get_reverse, h]
  | none =>
    simp [Bimap.get_reverse_or_alloc, Bimap.get_reverse, h, findAssoc]

/-- Interning never disturbs an existing reverse binding. -/
theorem get_reverse_alloc_mono (s : Bimap) (v w : Oid) (k : Nat)
    (h : s.get_reverse w = some k) :
    ((s.get_reverse_or_alloc v).2).get_reverse w = some k := by
  cases hv : findAssoc s.reverse v with
  | some j =>
    simpa [Bimap.get_reverse_or_alloc, Bimap.get_reverse, hv] using h
  | none =>
    have hne : v ≠ w := by
      intro he
      rw [he] at hv
      rw [Bimap.get_reverse, hv] at h
      exact Option.noConfusion h
    simp only [Bimap.get_reverse_or_alloc, Bimap.get_reverse, hv] at h ⊢
    simpa [findAssoc, hne] using h

/-- Interning only ever appends to the forward sequence. -/
theorem alloc_forward_extend (s : Bimap) (v : Oid) :
    ∃ t, (s.get_reverse_or_alloc v).2.forward = s.forward ++ t := by
  cases hv : findAssoc s.reverse v with
  | some j =>
    exact ⟨[], by simp [Bimap.get_reverse_or_alloc, Bimap.get_reverse, hv]⟩
  | none =>
    exact ⟨[v], by simp [Bimap.get_reverse_or_alloc, Bimap.get_reverse, hv]⟩

/-- Interning preserves the Bimap invariant. -/
theorem bimapInv_alloc (s : Bimap) (v : Oid) (hInv : BimapInv s) :
    BimapInv (s.get_reverse_or_alloc v).2 := by
  cases hv : findAssoc s.reverse v with
  | some j =>
    simpa [Bimap.get_reverse_or_alloc, Bimap.get_reverse, hv] using hInv
  | none =>
    intro j o hj
    simp only [Bimap.get_reverse_or_alloc, Bimap.get_reverse, hv] at hj ⊢
    rcases Nat.lt_trichotomy j s.forward.length with hlt | heq | hgt
    · rw [List.getElem?_append_left hlt] at hj
      have hrec := hInv j o hj
      have hne : v ≠ o := by
        intro he
        rw [he] at hv
        rw [hv] at hrec
        exact Option.noConfusion hrec
      simpa [findAssoc, hne] using hrec
    · subst heq
      rw [List.getElem?_append_right (Nat.le_refl _), Nat.sub_self] at hj
      have hov : o = v := by simpa using hj.symm
      subst hov
      simp [findAssoc]
    · rw [List.getElem?_append_right (Nat.le_of_lt hgt)] at hj
      have hnone : ([v] : List Oid)[j - s.forward.length]? = none :=
        List.getElem?_eq_none (by simp only [List.length_singleton]; omega)
      rw [hnone] at hj
      exact Option.noConfusion hj

/-- Every reachable Bimap satisfies the invariant. -/
theorem reachable_inv (root : Oid) (s : Bimap) (hr : Reachable root s) :
    BimapInv s := by
  induction hr with
  | init =>
    intro j o hj
    rcases j with _ | j
    · simp only [initNodes, List.getElem?_cons_zero, Option.some_inj] at hj
      subst hj
      simp [findAssoc]
    · simp [initNodes] at hj
  | step s v _ ih =>
    exact bimapInv_alloc s v ih

/-- Every reachable Bimap still holds the root at forward position 0. -/
theorem reachable_root_head (root : Oid) (s : Bimap) (hr : Reachable root s) :
    s.forward[0]? = some root := by
  induction hr with
  | init => simp [initNodes]
  | step s v _ ih =>
    obtain ⟨t, ht⟩ := alloc_forward_extend s v
    rw [ht]
    have hlen : 0 < s.forward.length := by
      by_contra hc
      have : s.forward = [] := List.eq_nil_of_length_eq_zero (by omega)
      rw [this] at ih
      simp at ih
    rw [List.getElem?_append_left hlen]
    exact ih

/-- Claim C6 (amended). For every reachable Bimap state: resolving inode k
with 1 ≤ k ≤ length of the forward sequence (that is, up to the count of
interned non-root objects plus one) returns the oid stored at position
k − 1, inode 1 always returning the root oid fixed at construction;
resolving any larger inode fails with NotFound (modelled as ok none);
but resolving inode 0 aborts the process (usize underflow followed by an
out-of-bounds index), instead of the NotFound the claim requires. -/
theorem get_forward_resolve (root : Oid) (s : Bimap) (hr : Reachable root s)
    (k : Nat) :
    (k = 0 → s.get_forward k = Outcome.panicked) ∧
    (1 ≤ k → k ≤ s.forward.length →
      ∃ o, s.forward[k - 1]? = some o ∧ s.get_forward k = Outcome.ok (some o)) ∧
    (s.forward.length < k → s.get_forward k = Outcome.ok none) ∧
    s.get_forward 1 = Outcome.ok (some root)
    := by
  have hhead := reachable_root_head root s hr
  have hlen : 0 < s.forward.length := by
    by_contra hc
    have : s.forward = [] := List.eq_nil_of_length_eq_zero (by omega)
    rw [this] at hhead
    simp at hhead
  refine ⟨?_, ?_, ?_, ?_⟩
  · intro hk
    subst hk
    simp [Bimap.get_forward, Nat.zero_le]
  · intro h1 h2
    have hidx : k - 1 < s.forward.length := by omega
    refine ⟨s.forward[k - 1], List.getElem?_eq_getElem hidx, ?_⟩
    have hk0 : k ≠ 0 := by omega
    simp [Bimap.get_forward, h2, hk0, List.getElem?_eq_getElem hidx]
  · intro hgt
    have : ¬ k ≤ s.forward.length := by omega
    simp [Bimap.get_forward, this]
  · have hne : s.forward ≠ [] := List.ne_nil_of_length_pos hlen
    simp [Bimap.get_forward, hlen, hhead, hne]

/-- Claim C6 counterexample. On the freshly constructed Bimap with root
oid 5, resolving inode 0 aborts (panicked) and in particular does not
return NotFound (ok none) as the claim states for inode 0. -/
theorem get_forward_zero_counterexample :
    (initNodes 5).get_forward 0 = Outcome.panicked ∧
    (initNodes 5).get_forward 0 ≠ Outcome.ok (none : Option Oid) := by
  decide

/-- Claim C6 witness. The amended theorem applied at the freshly
constructed Bimap with root oid 5 and inode 1. -/
theorem get_forward_resolve_witness :
    (initNodes 5).get_forward 1 = Outcome.ok (some 5) :=
  (get_forward_resolve 5 (initNodes 5) Reachable.init 1).2.2.2

/-- Claim C8. On every reachable Bimap state, whenever resolving inode i
succeeds with oid o, interning o returns i again and leaves the state
untouched: the resolve-then-intern round trip is the identity on
allocated inodes. -/
theorem resolve_intern_roundtrip (root : Oid) (s : Bimap)
    (hr : Reachable root s) (i : Nat) (o : Oid)
    (h : s.get_forward i = Outcome.ok (some o)) :
    s.get_reverse_or_alloc o = (i, s) := by
  have hInv := reachable_inv root s hr
  by_cases hle : i ≤ s.forward.length
  · by_cases hi0 : i = 0
    · subst hi0
      simp [Bimap.get_forward, Nat.zero_le] at h
    · cases hidx : s.forward[i - 1]? with
      | none =>
        rw [Bimap.get_forward, if_pos hle, if_neg hi0, hidx] at h
        exact absurd h (by simp)
      | some v =>
        rw [Bimap.get_forward, if_pos hle, if_neg hi0, hidx] at h
        have hvo : v = o := by
          simpa using h
        have hrev := hInv (i - 1) v hidx
        have hstep : i - 1 + 1 = i := by omega
        rw [hstep] at hrev
        rw [← hvo, Bimap.get_reverse_or_alloc, Bimap.get_reverse, hrev]
  · rw [Bimap.get_forward, if_neg hle] at h
    exact absurd h (by simp)

/-- Claim C8 witness. The round-trip theorem applied at the freshly
constructed Bimap with root oid 5: inode 1 resolves to oid 5 and
interning 5 returns inode 1 with the state unchanged. -/
theorem resolve_intern_roundtrip_witness :
    (initNodes 5).get_reverse_or_alloc 5 = (1, initNodes 5) :=
  resolve_intern_roundtrip 5 (initNodes 5) Reachable.init 1 5 (by decide)

/-- Claim C7. Interning the same oid twice yields the same inode both
times, and the second call leaves the Bimap exactly as the first left it:
the second get_reverse_or_alloc returns the very pair the first one
produced. -/
theorem intern_idempotent (s : Bimap) (v : Oid) :
    ((s.get_reverse_or_alloc v).2).get_reverse_or_alloc v =
      s.get_reverse_or_alloc v := by
  cases h : findAssoc s.reverse v with
  | some k =>
    simp [Bimap.get_reverse_or_alloc, Bimap.get_reverse, h]
  | none =>
    simp [Bimap.get_reverse_or_alloc, Bimap.get_reverse, h, findAssoc]

/-- On a tree or blob entry, get_tree_entry_info succeeds and returns the
interned inode, the mapped FileType and the entry name, together with the
Bimap produced by the interning. -/
theorem get_tree_entry_info_ok (nodes : Bimap) (e : TreeEntry)
    (hke : e.kind = ObjectType.tree ∨ e.kind = ObjectType.blob) :
    get_tree_entry_info nodes e = Outcome.ok
      (((nodes.get_reverse_or_alloc e.id).1, fileTypeOf e.kind, e.name),
        (nodes.get_reverse_or_alloc e.id).2) := by
  rcases hke with h | h <;> simp [get_tree_entry_info, h, fileTypeOf]

/-- The readdir emission loop on entries of supported kinds: it succeeds,
emits one reply entry per tree entry in order with cursor i + j + 2 for
the entry at position j, binds every entry to its interned inode in the
final Bimap, preserves existing reverse bindings, and only appends to the
forward sequence. -/
theorem readdirLoop_spec (es : List TreeEntry) :
    ∀ (nodes : Bimap) (i : Nat),
    (∀ e ∈ es, e.kind = ObjectType.tree ∨ e.kind = ObjectType.blob) →
    ∃ l s', readdirLoop nodes i es = Outcome.ok (l, s') ∧
      l.length = es.length ∧
      (∀ v k, nodes.get_reverse v = some k → s'.get_reverse v = some k) ∧
      (∃ t, s'.forward = nodes.forward ++ t) ∧
      (∀ j e, es[j]? = some e → ∃ kj,
        l[j]? = some (kj, i + j + 2, fileTypeOf e.kind, e.name) ∧
        s'.get_reverse e.id = some kj) := by
  induction es with
  | nil =>
    intro nodes i _
    refine ⟨[], nodes, rfl, rfl, fun v k h => h, ⟨[], by simp⟩, ?_⟩
    intro j e hj
    simp at hj
  | cons e rest ih =>
    intro nodes i hk
    have hke : e.kind = ObjectType.tree ∨ e.kind = ObjectType.blob :=
      hk e (by simp)
    obtain ⟨l', s', hloop, hlen, hpres, ⟨t, ht⟩, hidx⟩ :=
      ih (nodes.get_reverse_or_alloc e.id).2 (i + 1)
        (fun e' he' => hk e' (by simp [he']))
    refine ⟨((nodes.get_reverse_or_alloc e.id).1, i + 2, fileTypeOf e.kind,
      e.name) :: l', s', ?_, ?_, ?_, ?_, ?_⟩
    · simp [readdirLoop, get_tree_entry_info_ok nodes e hke, hloop]
    · simp [hlen]
    · intro v k h
      exact hpres v k (get_reverse_alloc_mono nodes e.id v k h)
    · obtain ⟨t1, ht1⟩ := alloc_forward_extend nodes e.id
      exact ⟨t1 ++ t, by rw [ht, ht1, List.append_assoc]⟩
    · intro j e' hj
      cases j with
      | zero =>
        have he' : e' = e := by simpa using hj.symm
        subst he'
        refine ⟨(nodes.get_reverse_or_alloc e'.id).1, by simp, ?_⟩
        exact hpres e'.id (nodes.get_reverse_or_alloc e'.id).1
          (get_reverse_alloc_self nodes e'.id)
      | succ j =>
        have hj' : rest[j]? = some e' := by simpa using hj
        obtain ⟨kj, h1, h2⟩ := hidx j e' hj'
        have harith : i + 1 + j + 2 = i + (j + 1) + 2 := by omega
        rw [harith] at h1
        exact ⟨kj, by simpa using h1, h2⟩

/-- Claim C5. For every inode resolving to a directory object whose
entries all have supported kinds, the initial readdir call (cursor 0)
replies, in order, with "." at the mount root inode 1 and kind directory,
".." also at inode 1 and kind directory, and then one entry per child in
the native order of the tree, the child at 0-based position j carrying
its interned inode (the binding the final Bimap holds for the child oid),
next-cursor j + 2, its mapped kind and its name; and the follow-up call
with cursor n + 1 replies with no entries and succeeds. -/
theorem readdir_listing (repo : Repo) (nodes : Bimap) (ino : Nat)
    (es : List TreeEntry)
    (ht : get_tree repo nodes ino = Outcome.ok (some es))
    (hk : ∀ e ∈ es, e.kind = ObjectType.tree ∨ e.kind = ObjectType.blob) :
    (∃ l s', readdir repo nodes ino 0 = Outcome.ok
        (DirReply.ok ((1, 0, FileType.directory, ".") ::
          (1, 1, FileType.directory, "..") :: l), s') ∧
      l.length = es.length ∧
      ∀ j e, es[j]? = some e → ∃ k,
        l[j]? = some (k, j + 2, fileTypeOf e.kind, e.name) ∧
        s'.get_reverse e.id = some k) ∧
    readdir repo nodes ino (es.length + 1) =
      Outcome.ok (DirReply.ok [], nodes) := by
  obtain ⟨l, s', hloop, hlen, hpres, hext, hidx⟩ := readdirLoop_spec es nodes 0 hk
  constructor
  · refine ⟨l, s', ?_, hlen, ?_⟩
    · simp [readdir, ht, hloop]
    · intro j e hj
      obtain ⟨k, h1, h2⟩ := hidx j e hj
      have harith : 0 + j + 2 = j + 2 := by omega
      rw [harith] at h1
      exact ⟨k, h1, h2⟩
  · simp [readdir, ht]

/-- Claim C5 witness. The listing theorem applied to the example store at
the root directory (one child, a.txt at oid 2), whose entry count is 1,
with terminating cursor 2. -/
theorem readdir_listing_witness :
    (∃ l s', readdir exRepo exNodes 1 0 = Outcome.ok
        (DirReply.ok ((1, 0, FileType.directory, ".") ::
          (1, 1, FileType.directory, "..") :: l), s') ∧
      l.length = [fileEntry].length ∧
      ∀ j e, [fileEntry][j]? = some e → ∃ k,
        l[j]? = some (k, j + 2, fileTypeOf e.kind, e.name) ∧
        s'.get_reverse e.id = some k) ∧
    readdir exRepo exNodes 1 ([fileEntry].length + 1) =
      Outcome.ok (DirReply.ok [], exNodes) :=
  readdir_listing exRepo exNodes 1 [fileEntry] (by decide) (by decide)

/-- The FileAttr literal has the fixed constant fields the spec lists. -/
theorem mkFileAttr_fixed (ino size : Nat) (kind : FileType) :
    FixedFields (mkFileAttr ino size kind) := by
  simp [FixedFields, mkFileAttr]

/-- Every attribute record an ok lookup scan replies with carries the
fixed constant fields, the block count computed from its size, size 0
when it describes a directory, and the raw byte length of the found blob
when it describes a regular file. -/
theorem lookupLoop_attr (repo : Repo) (name : String) (es : List TreeEntry) :
    ∀ (nodes : Bimap) (t : Timespec) (a : FileAttr) (g : Nat) (s' : Bimap),
    lookupLoop repo nodes name es = Outcome.ok (EntryReply.entry t a g, s') →
    FixedFields a ∧ a.blocks = (a.size + 4095) / 4096 ∧
    (a.kind = FileType.directory → a.size = 0) ∧
    (a.kind = FileType.regularFile →
      ∃ e c, e ∈ es ∧ repo e.id = some (GitObject.blobObj c) ∧
        a.size = c.length) := by
  induction es with
  | nil =>
    intro nodes t a g s' h
    simp [lookupLoop] at h
  | cons e rest ih =>
    intro nodes t a g s' h
    by_cases hn : e.name = name
    · rw [lookupLoop, if_pos hn] at h
      cases hinfo : get_tree_entry_info nodes e with
      | panicked =>
        rw [hinfo] at h
        exact Outcome.noConfusion h
      | ok p =>
        rw [hinfo] at h
        obtain ⟨info, nodes2⟩ := p
        cases hobj : find_object repo e.id with
        | none =>
          rw [hobj] at h
          exact Outcome.noConfusion h
        | some obj =>
          rw [hobj] at h
          cases obj with
          | blobObj c =>
            simp only [Outcome.ok.injEq, Prod.mk.injEq,
              EntryReply.entry.injEq] at h
            obtain ⟨⟨ht', ha, hg⟩, hs⟩ := h
            subst ha
            refine ⟨mkFileAttr_fixed _ _ _, rfl, ?_, ?_⟩
            · intro hd
              simp [mkFileAttr] at hd
            · intro _
              exact ⟨e, c, by simp, hobj, rfl⟩
          | treeObj ts =>
            simp only [Outcome.ok.injEq, Prod.mk.injEq,
              EntryReply.entry.injEq] at h
            obtain ⟨⟨ht', ha, hg⟩, hs⟩ := h
            subst ha
            refine ⟨mkFileAttr_fixed _ _ _, rfl, fun _ => rfl, ?_⟩
            intro hd
            simp [mkFileAttr] at hd
          | commitObj =>
            exact Outcome.noConfusion h
          | tagObj =>
            exact Outcome.noConfusion h
    · rw [lookupLoop, if_neg hn] at h
      obtain ⟨h1, h2, h3, h4⟩ := ih nodes t a g s' h
      refine ⟨h1, h2, h3, ?_⟩
      intro hkind
      obtain ⟨e', c, hmem, hrepo, hsize⟩ := h4 hkind
      exact ⟨e', c, List.mem_cons_of_mem e hmem, hrepo, hsize⟩

/-- Whatever get_tree_entry_info does to the Bimap, it only appends to
the forward sequence. -/
theorem get_tree_entry_info_extend (nodes : Bimap) (e : TreeEntry)
    (info : Nat × FileType × String) (nodes2 : Bimap)
    (h : get_tree_entry_info nodes e = Outcome.ok (info, nodes2)) :
    ∃ t, nodes2.forward = nodes.forward ++ t := by
  cases hke : e.kind with
  | tree =>
    rw [get_tree_entry_info, hke] at h
    simp only [Outcome.ok.injEq, Prod.mk.injEq] at h
    rw [← h.2]
    exact alloc_forward_extend nodes e.id
  | blob =>
    rw [get_tree_entry_info, hke] at h
    simp only [Outcome.ok.injEq, Prod.mk.injEq] at h
    rw [← h.2]
    exact alloc_forward_extend nodes e.id
  | commit =>
    rw [get_tree_entry_info, hke] at h
    exact Outcome.noConfusion h
  | tag =>
    rw [get_tree_entry_info, hke] at h
    exact Outcome.noConfusion h

/-- An ok readdir emission loop only appends to the forward sequence. -/
theorem readdirLoop_extend (es : List TreeEntry) :
    ∀ (nodes : Bimap) (i : Nat) (l : List (Nat × Nat × FileType × String))
      (s' : Bimap),
    readdirLoop nodes i es = Outcome.ok (l, s') →
    ∃ t, s'.forward = nodes.forward ++ t := by
  induction es with
  | nil =>
    intro nodes i l s' h
    simp only [readdirLoop, Outcome.ok.injEq, Prod.mk.injEq] at h
    exact ⟨[], by rw [← h.2]; simp⟩
  | cons e rest ih =>
    intro nodes i l s' h
    rw [readdirLoop] at h
    cases hinfo : get_tree_entry_info nodes e with
    | panicked =>
      rw [hinfo] at h
      exact Outcome.noConfusion h
    | ok p =>
      rw [hinfo] at h
      obtain ⟨info, nodes2⟩ := p
      dsimp only at h
      cases hloop : readdirLoop nodes2 (i + 1) rest with
      | panicked =>
        rw [hloop] at h
        exact Outcome.noConfusion h
      | ok q =>
        rw [hloop] at h
        obtain ⟨l', nodes3⟩ := q
        simp only [Outcome.ok.injEq, Prod.mk.injEq] at h
        obtain ⟨t1, ht1⟩ := get_tree_entry_info_extend nodes e info nodes2 hinfo
        obtain ⟨t2, ht2⟩ := ih nodes2 (i + 1) l' nodes3 hloop
        refine ⟨t1 ++ t2, ?_⟩
        rw [← h.2, ht2, ht1, List.append_assoc]

/-- An ok lookup scan only appends to the forward sequence. -/
theorem lookupLoop_extend (repo : Repo) (name : String) (es : List TreeEntry) :
    ∀ (nodes : Bimap) (r : EntryReply × Bimap),
    lookupLoop repo nodes name es = Outcome.ok r →
    ∃ t, r.2.forward = nodes.forward ++ t := by
  induction es with
  | nil =>
    intro nodes r h
    simp only [lookupLoop, Outcome.ok.injEq] at h
    exact ⟨[], by rw [← h]; simp⟩
  | cons e rest ih =>
    intro nodes r h
    by_cases hn : e.name = name
    · rw [lookupLoop, if_pos hn] at h
      cases hinfo : get_tree_entry_info nodes e with
      | panicked =>
        rw [hinfo] at h
        exact Outcome.noConfusion h
      | ok p =>
        rw [hinfo] at h
        obtain ⟨info, nodes2⟩ := p
        obtain ⟨t1, ht1⟩ := get_tree_entry_info_extend nodes e info nodes2 hinfo
        cases hobj : find_object repo e.id with
        | none =>
          rw [hobj] at h
          exact Outcome.noConfusion h
        | some obj =>
          rw [hobj] at h
          cases obj with
          | blobObj c =>
            simp only [Outcome.ok.injEq] at h
            exact ⟨t1, by rw [← h]; exact ht1⟩
          | treeObj ts =>
            simp only [Outcome.ok.injEq] at h
            exact ⟨t1, by rw [← h]; exact ht1⟩
          | commitObj =>
            exact Outcome.noConfusion h
          | tagObj =>
            exact Outcome.noConfusion h
    · rw [lookupLoop, if_neg hn] at h
      exact ih nodes r h

/-- Claim C9. Attribute synthesis: getattr on a file (blob) object replies
with kind regular-file, size equal to the raw byte length, block count
(size + 4095) / 4096, and the fixed constant fields, leaving the Bimap
unchanged; getattr on a directory (tree) object replies with kind
directory, size 0, block count 0 and the same constants; every attribute
record the lookup scan replies with carries the same constants, block
count (size + 4095) / 4096, size 0 for a directory and the raw byte
length of the found blob for a regular file; and the block count is
exactly the ceiling of size / 4096 (the least block count covering the
size). -/
theorem attr_synthesis :
    (∀ (repo : Repo) (nodes : Bimap) (ino : Nat) (c : List Byte),
      get_obj repo nodes ino = Outcome.ok (some (GitObject.blobObj c)) →
      ∃ a, getattr repo nodes ino = Outcome.ok (AttrReply.attr TTL a, nodes) ∧
        a.ino = ino ∧ a.kind = FileType.regularFile ∧ a.size = c.length ∧
        a.blocks = (c.length + 4095) / 4096 ∧ FixedFields a) ∧
    (∀ (repo : Repo) (nodes : Bimap) (ino : Nat) (ts : List TreeEntry),
      get_obj repo nodes ino = Outcome.ok (some (GitObject.treeObj ts)) →
      ∃ a, getattr repo nodes ino = Outcome.ok (AttrReply.attr TTL a, nodes) ∧
        a.ino = ino ∧ a.kind = FileType.directory ∧ a.size = 0 ∧
        a.blocks = 0 ∧ FixedFields a) ∧
    (∀ (repo : Repo) (name : String) (es : List TreeEntry) (nodes : Bimap)
      (t : Timespec) (a : FileAttr) (g : Nat) (s' : Bimap),
      lookupLoop repo nodes name es = Outcome.ok (EntryReply.entry t a g, s') →
      FixedFields a ∧ a.blocks = (a.size + 4095) / 4096 ∧
      (a.kind = FileType.directory → a.size = 0) ∧
      (a.kind = FileType.regularFile →
        ∃ e c, e ∈ es ∧ repo e.id = some (GitObject.blobObj c) ∧
          a.size = c.length)) ∧
    (∀ (ino size : Nat) (kind : FileType),
      size ≤ 4096 * (mkFileAttr ino size kind).blocks ∧
      ∀ m : Nat, size ≤ 4096 * m → (mkFileAttr ino size kind).blocks ≤ m) := by
  refine ⟨?_, ?_, ?_, ?_⟩
  · intro repo nodes ino c h
    refine ⟨mkFileAttr ino c.length FileType.regularFile, ?_, rfl, rfl, rfl,
      rfl, mkFileAttr_fixed _ _ _⟩
    simp [getattr, h]
  · intro repo nodes ino ts h
    refine ⟨mkFileAttr ino 0 FileType.directory, ?_, rfl, rfl, rfl, rfl,
      mkFileAttr_fixed _ _ _⟩
    simp [getattr, h]
  · intro repo name es nodes t a g s' h
    exact lookupLoop_attr repo name es nodes t a g s' h
  · intro ino size kind
    constructor
    · show size ≤ 4096 * ((size + 4095) / 4096)
      omega
    · intro m hm
      show (size + 4095) / 4096 ≤ m
      omega

/-- Claim C9 witness. The blob conjunct applied to the two-byte file at
inode 2 of the example store. -/
theorem attr_synthesis_witness :
    ∃ a, getattr exRepo exNodes2 2 = Outcome.ok (AttrReply.attr TTL a, exNodes2) ∧
      a.ino = 2 ∧ a.kind = FileType.regularFile ∧
      a.size = ([104, 105] : List Byte).length ∧
      a.blocks = (([104, 105] : List Byte).length + 4095) / 4096 ∧
      FixedFields a :=
  attr_synthesis.1 exRepo exNodes2 2 [104, 105] (by decide)

/-- Claim C10. Frame conditions on the Bimap: getattr leaves it exactly
unchanged, read leaves it exactly unchanged, and lookup and readdir (the
only allocating operations) modify the forward sequence only by
appending. -/
theorem bimap_frame :
    (∀ (repo : Repo) (nodes : Bimap) (ino : Nat) (r : AttrReply × Bimap),
      getattr repo nodes ino = Outcome.ok r → r.2 = nodes) ∧
    (∀ (repo : Repo) (nodes : Bimap) (ino offset size : Nat)
      (r : DataReply × Bimap),
      read repo nodes ino offset size = Outcome.ok r → r.2 = nodes) ∧
    (∀ (repo : Repo) (nodes : Bimap) (parent : Nat) (name : String)
      (r : EntryReply × Bimap),
      lookup repo nodes parent name = Outcome.ok r →
      ∃ t, r.2.forward = nodes.forward ++ t) ∧
    (∀ (repo : Repo) (nodes : Bimap) (ino cursor : Nat) (r : DirReply × Bimap),
      readdir repo nodes ino cursor = Outcome.ok r →
      ∃ t, r.2.forward = nodes.forward ++ t) := by
  refine ⟨?_, ?_, ?_, ?_⟩
  · intro repo nodes ino r h
    rw [getattr] at h
    cases hobj : get_obj repo nodes ino with
    | panicked =>
      rw [hobj] at h
      exact Outcome.noConfusion h
    | ok o =>
      rw [hobj] at h
      cases o with
      | none => exact Outcome.noConfusion h
      | some obj =>
        cases obj with
        | treeObj ts =>
          simp only [Outcome.ok.injEq] at h
          rw [← h]
        | blobObj c =>
          simp only [Outcome.ok.injEq] at h
          rw [← h]
        | commitObj => exact Outcome.noConfusion h
        | tagObj => exact Outcome.noConfusion h
  · intro repo nodes ino offset size r h
    rw [read] at h
    cases hobj : get_obj repo nodes ino with
    | panicked =>
      rw [hobj] at h
      exact Outcome.noConfusion h
    | ok o =>
      rw [hobj] at h
      cases o with
      | none => exact Outcome.noConfusion h
      | some obj =>
        cases obj with
        | treeObj ts => exact Outcome.noConfusion h
        | blobObj c =>
          dsimp only at h
          by_cases hle : offset + size ≤ c.length
          · rw [if_pos hle] at h
            simp only [Outcome.ok.injEq] at h
            rw [← h]
          · rw [if_neg hle] at h
            exact Outcome.noConfusion h
        | commitObj => exact Outcome.noConfusion h
        | tagObj => exact Outcome.noConfusion h
  · intro repo nodes parent name r h
    rw [lookup] at h
    cases htree : get_tree repo nodes parent with
    | panicked =>
      rw [htree] at h
      exact Outcome.noConfusion h
    | ok o =>
      rw [htree] at h
      cases o with
      | none =>
        simp only [Outcome.ok.injEq] at h
        exact ⟨[], by rw [← h]; simp⟩
      | some es =>
        exact lookupLoop_extend repo name es nodes r h
  · intro repo nodes ino cursor r h
    rw [readdir] at h
    cases htree : get_tree repo nodes ino with
    | panicked =>
      rw [htree] at h
      exact Outcome.noConfusion h
    | ok o =>
      rw [htree] at h
      cases o with
      | none =>
        simp only [Outcome.ok.injEq] at h
        exact ⟨[], by rw [← h]; simp⟩
      | some es =>
        dsimp only at h
        by_cases hbad : cursor ≠ 0 ∧ cursor ≠ es.length + 1
        · rw [if_pos hbad] at h
          exact Outcome.noConfusion h
        · rw [if_neg hbad] at h
          by_cases h0 : cursor = 0
          · rw [if_pos h0] at h
            cases hloop : readdirLoop nodes 0 es with
            | panicked =>
              rw [hloop] at h
              exact Outcome.noConfusion h
            | ok q =>
              rw [hloop] at h
              obtain ⟨l, nodes2⟩ := q
              simp only [Outcome.ok.injEq] at h
              obtain ⟨t, ht⟩ := readdirLoop_extend es nodes 0 l nodes2 hloop
              exact ⟨t, by rw [← h]; exact ht⟩
          · rw [if_neg h0] at h
            simp only [Outcome.ok.injEq] at h
            exact ⟨[], by rw [← h]; simp⟩

/-- Claim C10 witness. The lookup conjunct applied to the example store:
looking up a.txt from the freshly mounted state appends oid 2 to the
forward sequence. -/
theorem bimap_frame_witness :
    ∃ t, exNodes2.forward = exNodes.forward ++ t :=
  bimap_frame.2.2.1 exRepo exNodes 1 "a.txt"
    (EntryReply.entry TTL (mkFileAttr 2 2 FileType.regularFile) 0, exNodes2)
    (by decide)

end GitFS
